import Mathlib

/-!
Verification of the clockmail coordination engine against its specification.

The definitions below are a shallow embedding of the Go sources:
  * `pkg/clock/clock.go`   — Lamport clock (`receive`, `tick`) and `totalOrderLess`
  * `pkg/model`            — `Timestamp`, `Pointstamp` and the (epoch, round) order
  * `pkg/frontier`         — `computeFrontier`, `computeFrontierStatus`
  * `pkg/store` (retry.go) — `isTransientErrMsg`, `retryOp`, `backoffDelay`
  * `pkg/store` (store.go) — the lock table with `acquireLock` / `releaseLock`,
                             events, cursors and agents as explicit list state
  * `cmd/cm`               — `drainInbox` (app.go), the recv command core
                             (cmd_recv.go) and the sync receive step (cmd_sync.go)

Machine integers (`int64`) are modelled as `Int`; wall-clock instants as `Int`
(the code stores RFC3339Nano text whose comparison realises the time order).
Go's byte-wise string comparison coincides with `String.lt` on valid UTF-8.
-/

namespace Clockmail

/-! ## Lamport clock (pkg/clock/clock.go) -/

/-- `Clock.Tick` (IR1): pre-increment, return the new value. -/
def tick (c : Int) : Int := c + 1

/-- `Clock.Receive` (IR2): `if received > c.ts { c.ts = received }; c.ts++`. -/
def receive (c received : Int) : Int :=
  (if received > c then received else c) + 1

/-- `clock.TotalOrderLess`: `tsA < tsB`, or `tsA == tsB` and `agentA < agentB`. -/
def totalOrderLess (tsA : Int) (agentA : String) (tsB : Int) (agentB : String) : Bool :=
  if tsA ≠ tsB then decide (tsA < tsB) else decide (agentA < agentB)

/-! ## Claims C3 and C4 -/

/-- C3: for every clock value `c` and incoming timestamp `r`, `Receive r` yields
`max c r + 1`; in particular when `r < c` the counter still strictly advances,
by exactly one. -/
theorem receive_max_plus_one (c r : Int) :
    receive c r = max c r + 1 ∧ (r < c → receive c r = c + 1) := by
  constructor
  · unfold receive
    rcases le_or_lt r c with h | h
    · rw [if_neg (not_lt.mpr h), max_eq_left h]
    · rw [if_pos h, max_eq_right h.le]
  · intro h
    unfold receive
    rw [if_neg (not_lt.mpr h.le)]

/-- Witness for C3 at a concrete input: receiving 3 with counter 7 advances to 8. -/
theorem receive_max_plus_one_witness :
    (3 : Int) < 7 ∧ (receive 7 3 = max 7 3 + 1 ∧ ((3 : Int) < 7 → receive 7 3 = 7 + 1)) :=
  ⟨by decide, receive_max_plus_one 7 3⟩

/-- `totalOrderLess` holds exactly on the lexicographic strict order. -/
lemma totalOrderLess_iff (tsA : Int) (aA : String) (tsB : Int) (aB : String) :
    totalOrderLess tsA aA tsB aB = true ↔ tsA < tsB ∨ (tsA = tsB ∧ aA < aB) := by
  unfold totalOrderLess
  by_cases h : tsA = tsB
  · subst h; simp
  · simp [h]

/-- C4: `totalOrderLess` is a strict total order on (timestamp, agent) pairs:
irreflexive, transitive, and trichotomous — for distinct pairs exactly one
direction holds. -/
theorem totalOrderLess_strict_total_order :
    (∀ (ts : Int) (a : String), totalOrderLess ts a ts a = false) ∧
    (∀ (t1 : Int) (a1 : String) (t2 : Int) (a2 : String) (t3 : Int) (a3 : String),
      totalOrderLess t1 a1 t2 a2 = true → totalOrderLess t2 a2 t3 a3 = true →
      totalOrderLess t1 a1 t3 a3 = true) ∧
    (∀ (t1 : Int) (a1 : String) (t2 : Int) (a2 : String),
      (t1, a1) ≠ (t2, a2) →
      (totalOrderLess t1 a1 t2 a2 = true ∧ totalOrderLess t2 a2 t1 a1 = false) ∨
      (totalOrderLess t1 a1 t2 a2 = false ∧ totalOrderLess t2 a2 t1 a1 = true)) := by
  refine ⟨?_, ?_, ?_⟩
  · intro ts a
    simp [totalOrderLess]
  · intro t1 a1 t2 a2 t3 a3 h12 h23
    rw [totalOrderLess_iff] at h12 h23 ⊢
    rcases h12 with h12 | ⟨e12, h12⟩
    · rcases h23 with h23 | ⟨e23, _⟩
      · exact Or.inl (lt_trans h12 h23)
      · exact Or.inl (e23 ▸ h12)
    · rcases h23 with h23 | ⟨e23, h23⟩
      · exact Or.inl (e12 ▸ h23)
      · exact Or.inr ⟨e12.trans e23, lt_trans h12 h23⟩
  · intro t1 a1 t2 a2 hne
    have key : ∀ (u1 : Int) (b1 : String) (u2 : Int) (b2 : String),
        totalOrderLess u1 b1 u2 b2 = true → totalOrderLess u2 b2 u1 b1 = false := by
      intro u1 b1 u2 b2 h
      rw [totalOrderLess_iff] at h
      rw [Bool.eq_false_iff, Ne, totalOrderLess_iff]
      rintro (h' | ⟨e', h'⟩)
      · rcases h with h | ⟨e, _⟩
        · exact absurd (lt_trans h h') (lt_irrefl u1)
        · exact absurd h' (e ▸ lt_irrefl u1)
      · rcases h with h | ⟨_, h⟩
        · exact absurd h (e' ▸ lt_irrefl u2)
        · exact absurd (lt_trans h h') (lt_irrefl b1)
    rcases lt_trichotomy t1 t2 with h | h | h
    · exact Or.inl ⟨(totalOrderLess_iff ..).mpr (Or.inl h),
        key _ _ _ _ ((totalOrderLess_iff ..).mpr (Or.inl h))⟩
    · have ha : a1 ≠ a2 := fun hh => hne (by rw [h, hh])
      rcases lt_trichotomy a1 a2 with h' | h' | h'
      · exact Or.inl ⟨(totalOrderLess_iff ..).mpr (Or.inr ⟨h, h'⟩),
          key _ _ _ _ ((totalOrderLess_iff ..).mpr (Or.inr ⟨h, h'⟩))⟩
      · exact absurd h' ha
      · exact Or.inr ⟨key _ _ _ _ ((totalOrderLess_iff ..).mpr (Or.inr ⟨h.symm, h'⟩)),
          (totalOrderLess_iff ..).mpr (Or.inr ⟨h.symm, h'⟩)⟩
    · exact Or.inr ⟨key _ _ _ _ ((totalOrderLess_iff ..).mpr (Or.inl h)),
        (totalOrderLess_iff ..).mpr (Or.inl h)⟩

/-- Witness for C4 at concrete pairs: `(1, "a")` and `(1, "b")` are distinct and
the trichotomy instance produced by the theorem holds for them. -/
theorem totalOrderLess_strict_total_order_witness :
    ((1 : Int), "a") ≠ ((1 : Int), "b") ∧
    ((totalOrderLess 1 "a" 1 "b" = true ∧ totalOrderLess 1 "b" 1 "a" = false) ∨
     (totalOrderLess 1 "a" 1 "b" = false ∧ totalOrderLess 1 "b" 1 "a" = true)) :=
  ⟨by decide, totalOrderLess_strict_total_order.2.2 1 "a" 1 "b" (by decide)⟩

/-! ## Data model: structured timestamps and pointstamps (pkg/model) -/

/-- `model.Timestamp`: a Naiad-style structured timestamp (Epoch, Round). -/
structure Timestamp where
  epoch : Int
  round : Int
deriving DecidableEq

/-- `Timestamp.LessEq`: `(e1,r1) <= (e2,r2)` iff `e1<=e2 AND r1<=r2`. -/
def Timestamp.lessEq (t other : Timestamp) : Bool :=
  decide (t.epoch ≤ other.epoch) && decide (t.round ≤ other.round)

/-- `Timestamp.Less`: `t.LessEq(other) && t != other`. -/
def Timestamp.less (t other : Timestamp) : Bool :=
  t.lessEq other && decide (t ≠ other)

/-- `model.Pointstamp`: a (Timestamp, AgentID) pair. -/
structure Pointstamp where
  timestamp : Timestamp
  agentID : String
deriving DecidableEq

/-! ## Frontier engine (pkg/frontier) -/

/-- The inner loop of `ComputeFrontier`: `p` is dominated iff some `q` in the
active set from another agent has `q.Timestamp < p.Timestamp`. -/
def dominated (active : List Pointstamp) (p : Pointstamp) : Bool :=
  active.any fun q => decide (q.agentID ≠ p.agentID) && q.timestamp.less p.timestamp

/-- `frontier.ComputeFrontier`: keep, in order, every active pointstamp that is
not dominated by another agent's pointstamp. -/
def computeFrontier (active : List Pointstamp) : List Pointstamp :=
  active.filter fun p => !(dominated active p)

/-- `frontier.FrontierStatus`. -/
structure FrontierStatus where
  safeToFinalize : Bool
  frontier : List Pointstamp
  blockedBy : List Pointstamp
deriving DecidableEq

/-- One iteration of the loop in `ComputeFrontierStatus`: skip the asking
agent's own pointstamps; a pointstamp with timestamp `<= ts` clears the safe
flag and is appended to the blocker list. -/
def frontierStep (agentID : String) (ts : Timestamp) (st : FrontierStatus)
    (p : Pointstamp) : FrontierStatus :=
  if p.agentID = agentID then st
  else if p.timestamp.lessEq ts then
    { st with safeToFinalize := false, blockedBy := st.blockedBy ++ [p] }
  else st

/-- `frontier.ComputeFrontierStatus`: start from safe = true with the computed
frontier, then fold the loop body over the active set. -/
def computeFrontierStatus (agentID : String) (ts : Timestamp)
    (active : List Pointstamp) : FrontierStatus :=
  active.foldl (frontierStep agentID ts)
    { safeToFinalize := true, frontier := computeFrontier active, blockedBy := [] }

/-! ## Claims C5 and C6 -/

lemma frontierFold_safe (A : String) (r : Timestamp) (P : List Pointstamp)
    (st : FrontierStatus) :
    (P.foldl (frontierStep A r) st).safeToFinalize
      = (st.safeToFinalize &&
          P.all fun p => decide (p.agentID = A) || !(p.timestamp.lessEq r)) := by
  induction P generalizing st with
  | nil => simp
  | cons p rest ih =>
    rw [List.foldl_cons, ih, List.all_cons]
    unfold frontierStep
    by_cases h1 : p.agentID = A
    · simp [h1]
    · by_cases h2 : p.timestamp.lessEq r = true
      · simp [h1, h2]
      · simp [h1, Bool.eq_false_iff.mpr h2]

lemma frontierFold_blocked (A : String) (r : Timestamp) (P : List Pointstamp)
    (st : FrontierStatus) :
    (P.foldl (frontierStep A r) st).blockedBy
      = st.blockedBy ++
          P.filter fun p => decide (p.agentID ≠ A) && p.timestamp.lessEq r := by
  induction P generalizing st with
  | nil => simp
  | cons p rest ih =>
    rw [List.foldl_cons, ih, List.filter_cons]
    unfold frontierStep
    by_cases h1 : p.agentID = A
    · simp [h1]
    · by_cases h2 : p.timestamp.lessEq r = true
      · simp [h1, h2]
      · simp [h1, Bool.eq_false_iff.mpr h2]

/-- C5: `ComputeFrontierStatus A r P` is safe iff no pointstamp of another
agent has timestamp `<= r`; the blocker list is exactly the list of those
pointstamps; and with an empty active set the result is safe. -/
theorem computeFrontierStatus_spec (A : String) (r : Timestamp)
    (P : List Pointstamp) :
    ((computeFrontierStatus A r P).safeToFinalize = true ↔
      ∀ p ∈ P, p.agentID ≠ A → ¬(p.timestamp.lessEq r = true)) ∧
    ((computeFrontierStatus A r P).blockedBy
      = P.filter fun p => decide (p.agentID ≠ A) && p.timestamp.lessEq r) ∧
    (computeFrontierStatus A r []).safeToFinalize = true := by
  refine ⟨?_, ?_, by rfl⟩
  · unfold computeFrontierStatus
    rw [frontierFold_safe]
    simp only [Bool.true_and, List.all_eq_true, Bool.or_eq_true,
      decide_eq_true_eq, Bool.not_eq_true']
    constructor
    · intro h p hp hne
      rcases h p hp with h' | h'
      · exact absurd h' hne
      · exact fun hc => absurd hc (by rw [h']; exact Bool.false_ne_true)
    · intro h p hp
      by_cases hne : p.agentID = A
      · exact Or.inl hne
      · exact Or.inr (Bool.eq_false_iff.mpr (h p hp hne))
  · unfold computeFrontierStatus
    rw [frontierFold_blocked]
    rfl

/-- Witness for C5 at a concrete input: one blocking pointstamp from agent
"carol" at (1,0) makes "alice" unsafe at (1,0). -/
theorem computeFrontierStatus_spec_witness :
    ((computeFrontierStatus "alice" ⟨1, 0⟩ [⟨⟨1, 0⟩, "carol"⟩]).safeToFinalize = true ↔
      ∀ p ∈ [(⟨⟨1, 0⟩, "carol"⟩ : Pointstamp)], p.agentID ≠ "alice" →
        ¬(p.timestamp.lessEq ⟨1, 0⟩ = true)) ∧
    ((computeFrontierStatus "alice" ⟨1, 0⟩ [⟨⟨1, 0⟩, "carol"⟩]).blockedBy
      = [(⟨⟨1, 0⟩, "carol"⟩ : Pointstamp)].filter
          fun p => decide (p.agentID ≠ "alice") && p.timestamp.lessEq ⟨1, 0⟩) ∧
    (computeFrontierStatus "alice" ⟨1, 0⟩ []).safeToFinalize = true :=
  computeFrontierStatus_spec "alice" ⟨1, 0⟩ [⟨⟨1, 0⟩, "carol"⟩]

/-- Counterexample to C6 as stated: agents "b" and "c" both report (1,1), yet
neither is in the frontier because agent "a" at (0,0) dominates them both —
two agents reporting the same timestamp need not appear in the frontier. -/
theorem computeFrontier_same_ts_counterexample :
    ((⟨⟨1, 1⟩, "b"⟩ : Pointstamp) ∈
        [(⟨⟨0, 0⟩, "a"⟩ : Pointstamp), ⟨⟨1, 1⟩, "b"⟩, ⟨⟨1, 1⟩, "c"⟩] ∧
      (⟨⟨1, 1⟩, "c"⟩ : Pointstamp) ∈
        [(⟨⟨0, 0⟩, "a"⟩ : Pointstamp), ⟨⟨1, 1⟩, "b"⟩, ⟨⟨1, 1⟩, "c"⟩] ∧
      (⟨⟨1, 1⟩, "b"⟩ : Pointstamp).timestamp = (⟨⟨1, 1⟩, "c"⟩ : Pointstamp).timestamp ∧
      (⟨⟨1, 1⟩, "b"⟩ : Pointstamp).agentID ≠ (⟨⟨1, 1⟩, "c"⟩ : Pointstamp).agentID) ∧
    (⟨⟨1, 1⟩, "b"⟩ : Pointstamp) ∉
      computeFrontier [(⟨⟨0, 0⟩, "a"⟩ : Pointstamp), ⟨⟨1, 1⟩, "b"⟩, ⟨⟨1, 1⟩, "c"⟩] ∧
    (⟨⟨1, 1⟩, "c"⟩ : Pointstamp) ∉
      computeFrontier [(⟨⟨0, 0⟩, "a"⟩ : Pointstamp), ⟨⟨1, 1⟩, "b"⟩, ⟨⟨1, 1⟩, "c"⟩] := by
  decide

/-- C6 (amended): membership in `ComputeFrontier P` is exactly "no other
agent's pointstamp in `P` is strictly below"; the result is an antichain
across agents; and when each agent appears at most once in `P`, two agents
reporting the same timestamp are either both in the frontier or both out. -/
theorem computeFrontier_spec :
    (∀ (P : List Pointstamp) (p : Pointstamp), p ∈ P →
      (p ∈ computeFrontier P ↔
        ∀ q ∈ P, q.agentID ≠ p.agentID → ¬(q.timestamp.less p.timestamp = true))) ∧
    (∀ (P : List Pointstamp) (p q : Pointstamp),
      p ∈ computeFrontier P → q ∈ computeFrontier P → p.agentID ≠ q.agentID →
      ¬(p.timestamp.less q.timestamp = true) ∧ ¬(q.timestamp.less p.timestamp = true)) ∧
    (∀ (P : List Pointstamp) (p q : Pointstamp),
      (P.map Pointstamp.agentID).Nodup → p ∈ P → q ∈ P →
      p.timestamp = q.timestamp →
      (p ∈ computeFrontier P ↔ q ∈ computeFrontier P)) := by
  have memChar : ∀ (P : List Pointstamp) (p : Pointstamp),
      p ∈ computeFrontier P ↔ p ∈ P ∧ ∀ q ∈ P, q.agentID ≠ p.agentID →
        ¬(q.timestamp.less p.timestamp = true) := by
    intro P p
    unfold computeFrontier dominated
    rw [List.mem_filter]
    simp only [Bool.not_eq_true', List.any_eq_false, Bool.and_eq_true,
      decide_eq_true_eq, not_and]
  refine ⟨?_, ?_, ?_⟩
  · intro P p hp
    rw [memChar]
    exact ⟨fun h => h.2, fun h => ⟨hp, h⟩⟩
  · intro P p q hp hq hne
    rw [memChar] at hp hq
    exact ⟨hq.2 p hp.1 hne, hp.2 q hq.1 (Ne.symm hne)⟩
  · intro P p q hnodup hp hq hts
    have inj : ∀ x ∈ P, ∀ y ∈ P, x.agentID = y.agentID → x = y :=
      fun x hx y hy hxy => List.inj_on_of_nodup_map hnodup hx hy hxy
    rw [memChar, memChar]
    constructor
    · rintro ⟨_, h⟩
      refine ⟨hq, fun x hx hne hl => ?_⟩
      have hxp : x.agentID ≠ p.agentID := by
        intro he
        have : x = p := inj x hx p hp he
        subst this
        rw [hts] at hl
        exact absurd hl (by simp [Timestamp.less])
      exact h x hx hxp (by rwa [hts])
    · rintro ⟨_, h⟩
      refine ⟨hp, fun x hx hne hl => ?_⟩
      have hxq : x.agentID ≠ q.agentID := by
        intro he
        have : x = q := inj x hx q hq he
        subst this
        rw [← hts] at hl
        exact absurd hl (by simp [Timestamp.less])
      exact h x hx hxq (by rwa [← hts])

/-- Witness for C6 (amended) at a concrete input: agents "b" and "c" both at
(1,1) with "a" at (2,0) incomparable — both are in the frontier together. -/
theorem computeFrontier_spec_witness :
    (([(⟨⟨2, 0⟩, "a"⟩ : Pointstamp), ⟨⟨1, 1⟩, "b"⟩, ⟨⟨1, 1⟩, "c"⟩].map
        Pointstamp.agentID).Nodup ∧
      (⟨⟨1, 1⟩, "b"⟩ : Pointstamp).timestamp = (⟨⟨1, 1⟩, "c"⟩ : Pointstamp).timestamp) ∧
    ((⟨⟨1, 1⟩, "b"⟩ : Pointstamp) ∈
        computeFrontier [(⟨⟨2, 0⟩, "a"⟩ : Pointstamp), ⟨⟨1, 1⟩, "b"⟩, ⟨⟨1, 1⟩, "c"⟩] ↔
      (⟨⟨1, 1⟩, "c"⟩ : Pointstamp) ∈
        computeFrontier [(⟨⟨2, 0⟩, "a"⟩ : Pointstamp), ⟨⟨1, 1⟩, "b"⟩, ⟨⟨1, 1⟩, "c"⟩]) :=
  ⟨⟨by decide, by decide⟩,
    computeFrontier_spec.2.2 [⟨⟨2, 0⟩, "a"⟩, ⟨⟨1, 1⟩, "b"⟩, ⟨⟨1, 1⟩, "c"⟩]
      ⟨⟨1, 1⟩, "b"⟩ ⟨⟨1, 1⟩, "c"⟩ (by decide) (by decide) (by decide) (by decide)⟩

/-! ## Transient-contention retry (pkg/store retry.go)

The fallible operation is modelled as the sequence of outcomes of its
successive attempts (`att k` = error message of attempt `k`, `none` =
success), and the random jitter as the sequence `jit` of drawn values.
Durations are nanoseconds, as in Go's `time.Duration`. -/

/-- `pat` is a leading prefix of `s` (character lists). -/
def hasPrefixChars : List Char → List Char → Bool
  | _, [] => true
  | [], _ :: _ => false
  | a :: as, b :: bs => a == b && hasPrefixChars as bs

/-- `pat` occurs somewhere inside `s` (character lists). -/
def containsChars : List Char → List Char → Bool
  | [], pat => pat.isEmpty
  | a :: rest, pat => hasPrefixChars (a :: rest) pat || containsChars rest pat

/-- Go's `strings.Contains msg pattern`. -/
def strContains (s pat : String) : Bool := containsChars s.data pat.data

/-- The closed pattern set of `isTransientSQLiteErr`. -/
def transientPatterns : List String :=
  ["SQLITE_BUSY", "SQLITE_LOCKED", "IOERR_SHORT_READ", "database is locked",
   "database table is locked", "(5)", "(6)", "(522)"]

/-- `isTransientSQLiteErr`: nil errors are not transient; otherwise the message
is matched against the closed pattern set. -/
def isTransientSQLiteErr (err : Option String) : Bool :=
  match err with
  | none => false
  | some msg => transientPatterns.any fun pat => strContains msg pat

/-- `retryConfig`. -/
structure RetryConfig where
  maxRetries : Nat
  baseDelay : Nat
  maxDelay : Nat

/-- `defaultRetryConfig`: 3 retries, base 50 ms, cap 500 ms. -/
def defaultRetryConfig : RetryConfig :=
  { maxRetries := 3, baseDelay := 50000000, maxDelay := 500000000 }

/-- `backoffDelay`: `baseDelay << attempt`, capped at `maxDelay`, plus the
drawn jitter (Go draws it uniformly from `[0, baseDelay)`). -/
def backoffDelay (cfg : RetryConfig) (attempt : Nat) (jitter : Nat) : Nat :=
  let delay := cfg.baseDelay <<< attempt
  (if delay > cfg.maxDelay then cfg.maxDelay else delay) + jitter

/-- The loop of `retryOp`, with `fuel = maxRetries + 1 - attempt` remaining
attempts. Returns the final error, the number of attempts made, and the list
of delays slept between attempts. -/
def retryGo (cfg : RetryConfig) (att : Nat → Option String) (jit : Nat → Nat) :
    Nat → Nat → List Nat → Option String × Nat × List Nat
  | attempt, 0, delays => (none, attempt, delays.reverse)
  | attempt, fuel + 1, delays =>
    match att attempt with
    | none => (none, attempt + 1, delays.reverse)
    | some e =>
      if isTransientSQLiteErr (some e) then
        if fuel = 0 then (some e, attempt + 1, delays.reverse)
        else retryGo cfg att jit (attempt + 1) fuel
          (backoffDelay cfg attempt (jit attempt) :: delays)
      else (some e, attempt + 1, delays.reverse)

/-- `retryOp`: run attempts `0 .. maxRetries`, sleeping `backoffDelay` between
consecutive attempts while the error stays transient. -/
def retryOp (cfg : RetryConfig) (att : Nat → Option String) (jit : Nat → Nat) :
    Option String × Nat × List Nat :=
  retryGo cfg att jit 0 (cfg.maxRetries + 1) []

/-! ## Claim C8 -/

/-- C8: under the default policy, a non-transient first failure is returned
after a single attempt with no sleeps; a failure transient on every attempt is
retried 3 more times (4 attempts total) and the last error is returned, the
delay before the retry following attempt `k` being `baseDelay·2^k` capped at
`maxDelay` plus the drawn jitter; and the defaults are 3 retries, base 50 ms,
cap 500 ms. -/
theorem retryOp_policy_spec (att : Nat → Option String) (jit : Nat → Nat) :
    (defaultRetryConfig.maxRetries = 3 ∧ defaultRetryConfig.baseDelay = 50000000 ∧
      defaultRetryConfig.maxDelay = 500000000) ∧
    (∀ e, att 0 = some e → isTransientSQLiteErr (some e) = false →
      retryOp defaultRetryConfig att jit = (some e, 1, [])) ∧
    ((∀ k, k ≤ 3 → ∃ e, att k = some e ∧ isTransientSQLiteErr (some e) = true) →
      retryOp defaultRetryConfig att jit =
        (att 3, 4,
          [min (50000000 * 2 ^ 0) 500000000 + jit 0,
           min (50000000 * 2 ^ 1) 500000000 + jit 1,
           min (50000000 * 2 ^ 2) 500000000 + jit 2])) ∧
    (∀ (cfg : RetryConfig) (k j : Nat),
      backoffDelay cfg k j = min (cfg.baseDelay * 2 ^ k) cfg.maxDelay + j) := by
  have hback : ∀ (cfg : RetryConfig) (k j : Nat),
      backoffDelay cfg k j = min (cfg.baseDelay * 2 ^ k) cfg.maxDelay + j := by
    intro cfg k j
    simp only [backoffDelay, Nat.shiftLeft_eq]
    rcases le_or_lt (cfg.baseDelay * 2 ^ k) cfg.maxDelay with h | h
    · rw [if_neg (not_lt.mpr h), min_eq_left h]
    · rw [if_pos h, min_eq_right h.le]
  have hstep : ∀ (cfg : RetryConfig) (att : Nat → Option String) (jit : Nat → Nat)
      (attempt fuel : Nat) (delays : List Nat) (e : String),
      att attempt = some e → isTransientSQLiteErr (some e) = true → fuel ≠ 0 →
      retryGo cfg att jit attempt (fuel + 1) delays =
        retryGo cfg att jit (attempt + 1) fuel
          (backoffDelay cfg attempt (jit attempt) :: delays) := by
    intro cfg att jit attempt fuel delays e he ht hf
    cases fuel with
    | zero => exact absurd rfl hf
    | succ n =>
      conv_lhs => rw [retryGo]
      rw [he]
      simp [ht]
  have hlast : ∀ (cfg : RetryConfig) (att : Nat → Option String) (jit : Nat → Nat)
      (attempt : Nat) (delays : List Nat) (e : String),
      att attempt = some e → isTransientSQLiteErr (some e) = true →
      retryGo cfg att jit attempt (0 + 1) delays = (some e, attempt + 1, delays.reverse) := by
    intro cfg att jit attempt delays e he ht
    unfold retryGo
    rw [he]
    simp [ht]
  refine ⟨⟨rfl, rfl, rfl⟩, ?_, ?_, hback⟩
  · intro e h0 hnt
    simp [retryOp, retryGo, h0, hnt]
  · intro htr
    obtain ⟨e0, h0, t0⟩ := htr 0 (by omega)
    obtain ⟨e1, h1, t1⟩ := htr 1 (by omega)
    obtain ⟨e2, h2, t2⟩ := htr 2 (by omega)
    obtain ⟨e3, h3, t3⟩ := htr 3 (by omega)
    show retryGo defaultRetryConfig att jit 0 (3 + 1) [] = _
    rw [hstep defaultRetryConfig att jit 0 3 [] e0 h0 t0 (by omega)]
    show retryGo defaultRetryConfig att jit 1 (2 + 1)
        [backoffDelay defaultRetryConfig 0 (jit 0)] = _
    rw [hstep defaultRetryConfig att jit 1 2 _ e1 h1 t1 (by omega)]
    show retryGo defaultRetryConfig att jit 2 (1 + 1)
        [backoffDelay defaultRetryConfig 1 (jit 1),
         backoffDelay defaultRetryConfig 0 (jit 0)] = _
    rw [hstep defaultRetryConfig att jit 2 1 _ e2 h2 t2 (by omega)]
    show retryGo defaultRetryConfig att jit 3 (0 + 1)
        [backoffDelay defaultRetryConfig 2 (jit 2),
         backoffDelay defaultRetryConfig 1 (jit 1),
         backoffDelay defaultRetryConfig 0 (jit 0)] = _
    rw [hlast defaultRetryConfig att jit 3 _ e3 h3 t3, h3]
    simp [hback, defaultRetryConfig]

/-- Witness for C8 at concrete inputs: an always-"SQLITE_BUSY" operation is
attempted 4 times with the three backoff delays, and an operation failing with
a non-transient "boom" is attempted once with no delay. -/
theorem retryOp_policy_spec_witness :
    retryOp defaultRetryConfig (fun _ => some "SQLITE_BUSY") (fun _ => 7) =
      (some "SQLITE_BUSY", 4,
        [min (50000000 * 2 ^ 0) 500000000 + 7,
         min (50000000 * 2 ^ 1) 500000000 + 7,
         min (50000000 * 2 ^ 2) 500000000 + 7]) ∧
    retryOp defaultRetryConfig (fun _ => some "boom") (fun _ => 7) =
      (some "boom", 1, []) :=
  ⟨(retryOp_policy_spec (fun _ => some "SQLITE_BUSY") (fun _ => 7)).2.2.1
      (fun _ _ => ⟨"SQLITE_BUSY", rfl, by decide⟩),
    (retryOp_policy_spec (fun _ => some "boom") (fun _ => 7)).2.1
      "boom" rfl (by decide)⟩

/-! ## Durable store rows (pkg/store store.go, pkg/model)

Row shapes carry the columns the coordination logic reads and writes; the
advisory wall-clock metadata columns (`registered`, `last_seen`,
`created_at`) are not consulted by any verified operation and are omitted.
Wall-clock instants (`expires_at`, `now`) are integers. -/

/-- A row of the `agents` table. -/
structure Agent where
  id : String
  clock : Int
  epoch : Int
  round : Int
deriving DecidableEq

/-- A row of the `events` table. -/
structure Event where
  id : Int
  agentID : String
  lamportTS : Int
  epoch : Int
  round : Int
  kind : String
  target : String
  body : String
deriving DecidableEq

/-- A row of the `locks` table (PRIMARY KEY (path, agent_id)). -/
structure Lock where
  path : String
  agentID : String
  lamportTS : Int
  epoch : Int
  exclusive : Bool
  expiresAt : Int
deriving DecidableEq

/-! ## Lock arbiter (store.go: AcquireLock / ReleaseLock) -/

/-- `expireStaleLocks`: `DELETE FROM locks WHERE expires_at < now`. -/
def expireStaleLocks (locks : List Lock) (now : Int) : List Lock :=
  locks.filter fun l => !(decide (l.expiresAt < now))

/-- The conflict query of `AcquireLock` (`QueryRow` reads one row): an
exclusive lock on `path` held by a different agent. -/
def findConflict (locks : List Lock) (path agentID : String) : Option Lock :=
  locks.find? fun l => l.path == path && decide (l.agentID ≠ agentID) && l.exclusive

/-- The grant statement: `INSERT ... ON CONFLICT(path, agent_id) DO UPDATE SET
lamport_ts, epoch, exclusive, expires_at` — replace the row with the same key,
else append. -/
def upsertLock (locks : List Lock) (nl : Lock) : List Lock :=
  if locks.any (fun l => l.path == nl.path && l.agentID == nl.agentID) then
    locks.map fun l =>
      if l.path == nl.path && l.agentID == nl.agentID then nl else l
  else locks ++ [nl]

/-- The `lock` row built by `AcquireLock` for the requester; its expiry is
`now.Add(ttl)`. -/
def grantRow (path agentID : String) (lamportTS epoch : Int) (exclusive : Bool)
    (now ttl : Int) : Lock :=
  { path := path, agentID := agentID, lamportTS := lamportTS, epoch := epoch,
    exclusive := exclusive, expiresAt := now + ttl }

/-- `AcquireLock`: purge stale locks (best-effort, outside the transaction),
look for a conflicting exclusive holder, arbitrate by the Lamport total
order. Returns (granted lock, conflict lock, resulting locks table). -/
def acquireLock (locks : List Lock) (path agentID : String) (lamportTS epoch : Int)
    (exclusive : Bool) (now ttl : Int) : Option Lock × Option Lock × List Lock :=
  let purged := expireStaleLocks locks now
  let newLock : Lock := grantRow path agentID lamportTS epoch exclusive now ttl
  match findConflict purged path agentID with
  | none => (some newLock, none, upsertLock purged newLock)
  | some c =>
    if totalOrderLess lamportTS agentID c.lamportTS c.agentID then
      (some newLock, none,
        upsertLock (purged.filter fun l => !(l.path == path && l.agentID == c.agentID))
          newLock)
    else (none, some c, purged)

/-- `ReleaseLock`: `DELETE FROM locks WHERE path = ? AND agent_id = ?`. -/
def releaseLock (locks : List Lock) (path agentID : String) : List Lock :=
  locks.filter fun l => !(l.path == path && l.agentID == agentID)

/-- Well-formedness reflecting the PRIMARY KEY: no two rows share
(path, agent_id). -/
def lockKeysOk (locks : List Lock) : Prop :=
  locks.Pairwise fun a b => ¬(a.path = b.path ∧ a.agentID = b.agentID)

/-! ## Claim C1 -/

lemma mem_upsertLock {locks : List Lock} {nl l : Lock}
    (h : l ∈ upsertLock locks nl) :
    l = nl ∨ (l ∈ locks ∧ ¬(l.path = nl.path ∧ l.agentID = nl.agentID)) := by
  unfold upsertLock at h
  by_cases hany : locks.any (fun x => x.path == nl.path && x.agentID == nl.agentID) = true
  · rw [if_pos hany] at h
    obtain ⟨z, hz, hfz⟩ := List.mem_map.mp h
    by_cases hk : (z.path == nl.path && z.agentID == nl.agentID) = true
    · rw [if_pos hk] at hfz
      exact Or.inl hfz.symm
    · rw [if_neg hk] at hfz
      subst hfz
      refine Or.inr ⟨hz, fun hc => hk ?_⟩
      simp [hc.1, hc.2]
  · rw [if_neg hany] at h
    rcases List.mem_append.mp h with h' | h'
    · refine Or.inr ⟨h', fun hc => hany ?_⟩
      rw [List.any_eq_true]
      exact ⟨l, h', by simp [hc.1, hc.2]⟩
    · exact Or.inl (by simpa using h')

lemma findConflict_none {locks : List Lock} {path agentID : String}
    (h : findConflict locks path agentID = none) :
    ∀ l ∈ locks, l.path = path → l.exclusive = true → l.agentID = agentID := by
  intro l hl hp hx
  have := List.find?_eq_none.mp h l hl
  by_contra hne
  exact this (by simp [hp, hx, hne])

lemma findConflict_some {locks : List Lock} {path agentID : String} {c : Lock}
    (h : findConflict locks path agentID = some c) :
    c ∈ locks ∧ c.path = path ∧ c.agentID ≠ agentID ∧ c.exclusive = true := by
  have hm := List.mem_of_find?_eq_some h
  have hp := List.find?_some h
  simp only [Bool.and_eq_true, beq_iff_eq, decide_eq_true_eq] at hp
  exact ⟨hm, hp.1.1, hp.1.2, hp.2⟩

/-- A concrete exclusive holder: agent "b" on path "f" at Lamport ts 5. -/
def lockBf5 : Lock :=
  { path := "f", agentID := "b", lamportTS := 5, epoch := 0,
    exclusive := true, expiresAt := 100 }

/-- The lock granted to agent "a" on path "f" at Lamport ts 2 with ttl 10. -/
def lockAf2 : Lock :=
  { path := "f", agentID := "a", lamportTS := 2, epoch := 0,
    exclusive := true, expiresAt := 10 }

/-- Counterexample to C1 as stated: agent "a" at ts 2 evicts holder "b" at
ts 5 — the conflict query found "b"'s lock and the requester won, the lock is
granted, yet the returned conflict record is `none`, not the evicted lock. -/
theorem acquireLock_evicted_conflict_not_returned :
    (findConflict (expireStaleLocks [lockBf5] 0) "f" "a" = some lockBf5 ∧
      totalOrderLess 2 "a" 5 "b" = true) ∧
    (acquireLock [lockBf5] "f" "a" 2 0 true 0 10).1 = some lockAf2 ∧
    (acquireLock [lockBf5] "f" "a" 2 0 true 0 10).2.1 = none := by
  decide

/-- C1 (amended): exactly one of granted/conflict is non-null; with no
conflicting exclusive holder the request is granted by upserting the
(path, agent) row with refreshed expiry; with a conflicting holder `c` the
request is granted exactly when the requester strictly precedes `c` in the
Lamport total order, in which case `c`'s row is deleted and the conflict
result is null (the evicted record is not returned); otherwise no grant
occurs, `c` is returned as the conflict record and the table is left as
purged. -/
theorem acquireLock_branches (locks : List Lock) (path agentID : String)
    (ts epoch : Int) (excl : Bool) (now ttl : Int) :
    (((acquireLock locks path agentID ts epoch excl now ttl).1.isSome = true ∧
        (acquireLock locks path agentID ts epoch excl now ttl).2.1 = none) ∨
      ((acquireLock locks path agentID ts epoch excl now ttl).1 = none ∧
        (acquireLock locks path agentID ts epoch excl now ttl).2.1.isSome = true)) ∧
    (findConflict (expireStaleLocks locks now) path agentID = none →
      acquireLock locks path agentID ts epoch excl now ttl =
        (some (grantRow path agentID ts epoch excl now ttl), none,
          upsertLock (expireStaleLocks locks now)
            (grantRow path agentID ts epoch excl now ttl))) ∧
    (∀ c, findConflict (expireStaleLocks locks now) path agentID = some c →
      (totalOrderLess ts agentID c.lamportTS c.agentID = true →
        (acquireLock locks path agentID ts epoch excl now ttl).1 =
          some (grantRow path agentID ts epoch excl now ttl) ∧
        (acquireLock locks path agentID ts epoch excl now ttl).2.1 = none ∧
        (∀ l ∈ (acquireLock locks path agentID ts epoch excl now ttl).2.2,
          ¬(l.path = path ∧ l.agentID = c.agentID))) ∧
      (totalOrderLess ts agentID c.lamportTS c.agentID = false →
        acquireLock locks path agentID ts epoch excl now ttl =
          (none, some c, expireStaleLocks locks now))) := by
  refine ⟨?_, ?_, ?_⟩
  · rcases h : findConflict (expireStaleLocks locks now) path agentID with _ | c
    · simp [acquireLock, h]
    · by_cases htol : totalOrderLess ts agentID c.lamportTS c.agentID = true
      · simp [acquireLock, h, htol]
      · simp [acquireLock, h, Bool.eq_false_iff.mpr htol]
  · intro h
    simp [acquireLock, h]
  · intro c hc
    have hcp := findConflict_some hc
    constructor
    · intro htol
      refine ⟨?_, ?_, fun l hl hkey => ?_⟩
      · simp [acquireLock, hc, htol]
      · simp [acquireLock, hc, htol]
      · rw [show (acquireLock locks path agentID ts epoch excl now ttl).2.2
            = upsertLock ((expireStaleLocks locks now).filter
                fun x => !(x.path == path && x.agentID == c.agentID))
              (grantRow path agentID ts epoch excl now ttl) from by
          simp [acquireLock, hc, htol]] at hl
        rcases mem_upsertLock hl with he | ⟨hmem, _⟩
        · subst he
          exact hcp.2.2.1 (by simpa [grantRow] using hkey.2.symm)
        · have := (List.mem_filter.mp hmem).2
          simp only [Bool.not_eq_true', Bool.and_eq_false_iff, beq_eq_false_iff_ne] at this
          rcases this with h' | h'
          · exact h' hkey.1
          · exact h' hkey.2
    · intro htol
      simp [acquireLock, hc, htol]

/-- A concrete exclusive holder: agent "a" on path "f" at Lamport ts 1. -/
def lockAf1 : Lock :=
  { path := "f", agentID := "a", lamportTS := 1, epoch := 0,
    exclusive := true, expiresAt := 100 }

/-- Witness for C1 (amended) at a concrete input: holder "a" at ts 1 beats
requester "b" at ts 2, so the request is denied and "a"'s record returned. -/
theorem acquireLock_branches_witness :
    (findConflict (expireStaleLocks [lockAf1] 0) "f" "b" = some lockAf1 ∧
      totalOrderLess 2 "b" 1 "a" = false) ∧
    acquireLock [lockAf1] "f" "b" 2 0 true 0 10 =
      (none, some lockAf1, expireStaleLocks [lockAf1] 0) :=
  ⟨⟨by decide, by decide⟩,
    ((acquireLock_branches [lockAf1] "f" "b" 2 0 true 0 10).2.2
      lockAf1 (by decide)).2 (by decide)⟩

/-! ## Claim C2: the per-path exclusive-lock invariant -/

/-- Row predicate of the spec invariant at threshold "expiry at or after `t`"
(rows that survive the lazy purge at instant `t`). -/
def exclGeAt (p : String) (t : Int) (l : Lock) : Bool :=
  l.path == p && l.exclusive && decide (t ≤ l.expiresAt)

/-- Row predicate of the spec invariant `L.path = p, L.exclusive,
L.expires_at > t`. -/
def exclGtAt (p : String) (t : Int) (l : Lock) : Bool :=
  l.path == p && l.exclusive && decide (t < l.expiresAt)

lemma exclGeAt_iff {p : String} {t : Int} {l : Lock} :
    exclGeAt p t l = true ↔ l.path = p ∧ l.exclusive = true ∧ t ≤ l.expiresAt := by
  simp [exclGeAt, and_assoc]

lemma exclGtAt_imp_ge {p : String} {t : Int} {l : Lock}
    (h : exclGtAt p t l = true) : exclGeAt p t l = true := by
  simp only [exclGtAt, Bool.and_eq_true, decide_eq_true_eq] at h
  simp only [exclGeAt, Bool.and_eq_true, decide_eq_true_eq]
  exact ⟨h.1, h.2.le⟩

lemma mem_of_length_le_one {α : Type} {l : List α} (h : l.length ≤ 1)
    {x y : α} (hx : x ∈ l) (hy : y ∈ l) : x = y := by
  match l with
  | [] => cases hx
  | [a] =>
    rw [List.mem_singleton] at hx hy
    rw [hx, hy]
  | a :: b :: t => simp at h

lemma filter_uniq_of_le_one {α : Type} {l : List α} {q : α → Bool}
    (h : (l.filter q).length ≤ 1) {x y : α} (hx : x ∈ l) (hqx : q x = true)
    (hy : y ∈ l) (hqy : q y = true) : x = y :=
  mem_of_length_le_one h (List.mem_filter.mpr ⟨hx, hqx⟩)
    (List.mem_filter.mpr ⟨hy, hqy⟩)

lemma length_filter_le_one {α : Type} {l : List α} {q : α → Bool} (hnd : l.Nodup)
    (huniq : ∀ x ∈ l, ∀ y ∈ l, q x = true → q y = true → x = y) :
    (l.filter q).length ≤ 1 := by
  rcases hfl : l.filter q with _ | ⟨a, _ | ⟨b, t⟩⟩
  · simp
  · simp
  · exfalso
    have ha : a ∈ l.filter q := by rw [hfl]; exact List.mem_cons_self ..
    have hb : b ∈ l.filter q := by rw [hfl]; simp
    have heq : a = b := huniq a (List.mem_of_mem_filter ha) b
      (List.mem_of_mem_filter hb) (List.of_mem_filter ha) (List.of_mem_filter hb)
    have hnd' : (l.filter q).Nodup := hnd.filter _
    rw [hfl, heq] at hnd'
    simp at hnd'

lemma length_filter_le_of_imp {α : Type} (l : List α) (q r : α → Bool)
    (himp : ∀ x, q x = true → r x = true) :
    (l.filter q).length ≤ (l.filter r).length := by
  induction l with
  | nil => simp
  | cons a t ih =>
    cases hq : q a with
    | false =>
      cases hr : r a with
      | false => simpa [List.filter_cons, hq, hr] using ih
      | true =>
        simp only [List.filter_cons, hq, hr, Bool.false_eq_true, if_false,
          if_true, List.length_cons]
        exact ih.trans (Nat.le_succ _)
    | true =>
      have hra := himp a hq
      simp only [List.filter_cons, hq, hra, if_true, List.length_cons]
      omega

/-- Rows sharing a (path, agent_id) key are symmetric-incompatible. -/
lemma samekey_symm :
    Symmetric fun a b : Lock => ¬(a.path = b.path ∧ a.agentID = b.agentID) :=
  fun _ _ hab hc => hab ⟨hc.1.symm, hc.2.symm⟩

lemma lockKeysOk_nodup {locks : List Lock} (h : lockKeysOk locks) : locks.Nodup :=
  h.imp fun {_a _b} hab he => hab ⟨congrArg Lock.path he, congrArg Lock.agentID he⟩

lemma eq_of_samekey {locks : List Lock} (h : lockKeysOk locks) {x y : Lock}
    (hx : x ∈ locks) (hy : y ∈ locks) (hp : x.path = y.path)
    (ha : x.agentID = y.agentID) : x = y := by
  by_contra hne
  exact List.Pairwise.forall samekey_symm h hx hy hne ⟨hp, ha⟩

lemma upsert_key_eq (nl l : Lock) :
    (if l.path == nl.path && l.agentID == nl.agentID then nl else l).path = l.path ∧
    (if l.path == nl.path && l.agentID == nl.agentID then nl else l).agentID
      = l.agentID := by
  by_cases hk : (l.path == nl.path && l.agentID == nl.agentID) = true
  · rw [if_pos hk]
    simp only [Bool.and_eq_true, beq_iff_eq] at hk
    exact ⟨hk.1.symm, hk.2.symm⟩
  · rw [if_neg hk]
    exact ⟨rfl, rfl⟩

lemma lockKeysOk_upsert {locks : List Lock} {nl : Lock} (h : lockKeysOk locks) :
    lockKeysOk (upsertLock locks nl) := by
  unfold upsertLock
  by_cases hany : (locks.any fun l => l.path == nl.path && l.agentID == nl.agentID) = true
  · rw [if_pos hany]
    rw [lockKeysOk, List.pairwise_map]
    refine h.imp fun {a b} hab hc => hab ?_
    rcases upsert_key_eq nl _ with ⟨hp1, ha1⟩
    constructor
    · rw [← hp1, hc.1, (upsert_key_eq nl _).1]
    · rw [← ha1, hc.2, (upsert_key_eq nl _).2]
  · rw [if_neg hany]
    rw [lockKeysOk, List.pairwise_append]
    refine ⟨h, by simp, fun a ha b hb => ?_⟩
    rw [List.mem_singleton] at hb
    subst hb
    intro hc
    exact hany (List.any_eq_true.mpr ⟨a, ha, by simp [hc.1, hc.2]⟩)

lemma mem_upsert_of_nokey {locks : List Lock} {nl l : Lock} (hl : l ∈ locks)
    (hk : ¬(l.path = nl.path ∧ l.agentID = nl.agentID)) :
    l ∈ upsertLock locks nl := by
  have hkb : (l.path == nl.path && l.agentID == nl.agentID) = false := by
    rw [Bool.eq_false_iff]
    intro hc
    simp only [Bool.and_eq_true, beq_iff_eq] at hc
    exact hk hc
  unfold upsertLock
  by_cases hany : (locks.any fun x => x.path == nl.path && x.agentID == nl.agentID) = true
  · rw [if_pos hany]
    exact List.mem_map.mpr ⟨l, hl, by simp [hkb]⟩
  · rw [if_neg hany]
    exact List.mem_append_left _ hl

lemma mem_purged_ge {locks : List Lock} {now : Int} {l : Lock}
    (h : l ∈ expireStaleLocks locks now) : now ≤ l.expiresAt := by
  have := (List.mem_filter.mp h).2
  simp only [Bool.not_eq_true', decide_eq_false_iff_not, not_lt] at this
  exact this

lemma acquire_exclGe_len_le_one (locks : List Lock) (p q agentID : String)
    (ts epoch : Int) (excl : Bool) (now ttl : Int)
    (hwf : lockKeysOk locks)
    (hpre : (locks.filter (exclGeAt p now)).length ≤ 1) :
    (((acquireLock locks q agentID ts epoch excl now ttl).2.2).filter
        (exclGeAt p now)).length ≤ 1 := by
  have hsub : (expireStaleLocks locks now).Sublist locks := List.filter_sublist _
  have hwfp : lockKeysOk (expireStaleLocks locks now) := hwf.sublist hsub
  rcases hfc : findConflict (expireStaleLocks locks now) q agentID with _ | c
  · have hres : (acquireLock locks q agentID ts epoch excl now ttl).2.2
        = upsertLock (expireStaleLocks locks now)
            (grantRow q agentID ts epoch excl now ttl) := by
      simp [acquireLock, hfc]
    rw [hres]
    apply length_filter_le_one (lockKeysOk_nodup (lockKeysOk_upsert hwfp))
    intro x hx y hy hqx hqy
    by_cases hpq : p = q
    · subst hpq
      have key : ∀ z, z ∈ upsertLock (expireStaleLocks locks now)
          (grantRow p agentID ts epoch excl now ttl) →
          exclGeAt p now z = true →
          z = grantRow p agentID ts epoch excl now ttl := by
        intro z hz hqz
        rcases mem_upsertLock hz with he | ⟨hmem, hk⟩
        · exact he
        · exfalso
          rcases exclGeAt_iff.mp hqz with ⟨hzp, hzx, _⟩
          have hza := findConflict_none hfc z hmem hzp hzx
          exact hk ⟨by simpa [grantRow] using hzp, by simpa [grantRow] using hza⟩
      rw [key x hx hqx, key y hy hqy]
    · have key : ∀ z, z ∈ upsertLock (expireStaleLocks locks now)
          (grantRow q agentID ts epoch excl now ttl) →
          exclGeAt p now z = true → z ∈ locks := by
        intro z hz hqz
        rcases mem_upsertLock hz with he | ⟨hmem, _⟩
        · exfalso
          rcases exclGeAt_iff.mp hqz with ⟨hzp, _, _⟩
          rw [he] at hzp
          have : q = p := by simpa [grantRow] using hzp
          exact hpq this.symm
        · exact hsub.subset hmem
      exact filter_uniq_of_le_one hpre (key x hx hqx) hqx (key y hy hqy) hqy
  · have hcp := findConflict_some hfc
    by_cases htol : totalOrderLess ts agentID c.lamportTS c.agentID = true
    · have hres : (acquireLock locks q agentID ts epoch excl now ttl).2.2
          = upsertLock ((expireStaleLocks locks now).filter
              fun l => !(l.path == q && l.agentID == c.agentID))
            (grantRow q agentID ts epoch excl now ttl) := by
        simp [acquireLock, hfc, htol]
      have hsub2 : ((expireStaleLocks locks now).filter
          fun l => !(l.path == q && l.agentID == c.agentID)).Sublist locks :=
        (List.filter_sublist _).trans hsub
      rw [hres]
      apply length_filter_le_one (lockKeysOk_nodup (lockKeysOk_upsert (hwf.sublist hsub2)))
      intro x hx y hy hqx hqy
      by_cases hpq : p = q
      · subst hpq
        have hcnt : exclGeAt p now c = true :=
          exclGeAt_iff.mpr ⟨hcp.2.1, hcp.2.2.2, mem_purged_ge hcp.1⟩
        have key : ∀ z, z ∈ upsertLock ((expireStaleLocks locks now).filter
            fun l => !(l.path == p && l.agentID == c.agentID))
            (grantRow p agentID ts epoch excl now ttl) →
            exclGeAt p now z = true →
            z = grantRow p agentID ts epoch excl now ttl := by
          intro z hz hqz
          rcases mem_upsertLock hz with he | ⟨hmem, _⟩
          · exact he
          · exfalso
            have hz2 := List.mem_filter.mp hmem
            have hzc : z = c := filter_uniq_of_le_one hpre
              (hsub.subset hz2.1) hqz (hsub.subset hcp.1) hcnt
            have hfilt := hz2.2
            rw [hzc] at hfilt
            simp [hcp.2.1] at hfilt
        rw [key x hx hqx, key y hy hqy]
      · have key : ∀ z, z ∈ upsertLock ((expireStaleLocks locks now).filter
            fun l => !(l.path == q && l.agentID == c.agentID))
            (grantRow q agentID ts epoch excl now ttl) →
            exclGeAt p now z = true → z ∈ locks := by
          intro z hz hqz
          rcases mem_upsertLock hz with he | ⟨hmem, _⟩
          · exfalso
            rcases exclGeAt_iff.mp hqz with ⟨hzp, _, _⟩
            rw [he] at hzp
            have : q = p := by simpa [grantRow] using hzp
            exact hpq this.symm
          · exact hsub2.subset hmem
        exact filter_uniq_of_le_one hpre (key x hx hqx) hqx (key y hy hqy) hqy
    · have hres : (acquireLock locks q agentID ts epoch excl now ttl).2.2
          = expireStaleLocks locks now := by
        simp [acquireLock, hfc, htol]
      rw [hres]
      exact ((hsub.filter _).length_le).trans hpre

/-- C2 (amended): starting from a table whose exclusive locks on `p` with
expiry at or after the current instant number at most one (rows expiring
exactly now survive the purge and take part in arbitration, so the
precondition must count them), every `AcquireLock` — on any path — and every
`ReleaseLock` preserves that bound, and in particular leaves at most one
exclusive lock on `p` with expiry strictly later than now at commit; an
unexpired lock of another agent disappears from the table only when the
requester strictly precedes it in the Lamport total order. -/
theorem lock_excl_invariant (locks : List Lock) (p q agentID : String)
    (ts epoch : Int) (excl : Bool) (now ttl : Int)
    (hwf : lockKeysOk locks)
    (hpre : (locks.filter (exclGeAt p now)).length ≤ 1) :
    (((acquireLock locks q agentID ts epoch excl now ttl).2.2).filter
        (exclGeAt p now)).length ≤ 1 ∧
    (((acquireLock locks q agentID ts epoch excl now ttl).2.2).filter
        (exclGtAt p now)).length ≤ 1 ∧
    ((releaseLock locks q agentID).filter (exclGeAt p now)).length ≤ 1 ∧
    ((releaseLock locks q agentID).filter (exclGtAt p now)).length ≤ 1 ∧
    (∀ l ∈ locks, ¬(l.expiresAt < now) → l.agentID ≠ agentID →
      l ∉ (acquireLock locks q agentID ts epoch excl now ttl).2.2 →
      totalOrderLess ts agentID l.lamportTS l.agentID = true) := by
  have hge := acquire_exclGe_len_le_one locks p q agentID ts epoch excl now ttl hwf hpre
  have hrel_ge : ((releaseLock locks q agentID).filter (exclGeAt p now)).length ≤ 1 :=
    (((List.filter_sublist locks).filter (exclGeAt p now)).length_le).trans hpre
  refine ⟨hge, ?_, hrel_ge, ?_, ?_⟩
  · exact (length_filter_le_of_imp _ _ _ fun x => exclGtAt_imp_ge).trans hge
  · exact (length_filter_le_of_imp _ _ _ fun x => exclGtAt_imp_ge).trans hrel_ge
  · intro l hl hexp hag hnot
    have hlp : l ∈ expireStaleLocks locks now :=
      List.mem_filter.mpr ⟨hl, by simp [hexp]⟩
    rcases hfc : findConflict (expireStaleLocks locks now) q agentID with _ | c
    · exfalso
      apply hnot
      rw [show (acquireLock locks q agentID ts epoch excl now ttl).2.2
          = upsertLock (expireStaleLocks locks now)
              (grantRow q agentID ts epoch excl now ttl) from by
        simp [acquireLock, hfc]]
      exact mem_upsert_of_nokey hlp fun hk => hag (hk.2.trans rfl)
    · by_cases htol : totalOrderLess ts agentID c.lamportTS c.agentID = true
      · by_cases hkey : l.path = q ∧ l.agentID = c.agentID
        · have hcp := findConflict_some hfc
          have hc_locks : c ∈ locks := (List.filter_sublist _).subset hcp.1
          have hlc : l = c :=
            eq_of_samekey hwf hl hc_locks (hkey.1.trans hcp.2.1.symm) hkey.2
          rw [hlc]
          exact htol
        · exfalso
          apply hnot
          rw [show (acquireLock locks q agentID ts epoch excl now ttl).2.2
              = upsertLock ((expireStaleLocks locks now).filter
                  fun x => !(x.path == q && x.agentID == c.agentID))
                (grantRow q agentID ts epoch excl now ttl) from by
            simp [acquireLock, hfc, htol]]
          have hl2 : l ∈ (expireStaleLocks locks now).filter
              fun x => !(x.path == q && x.agentID == c.agentID) := by
            refine List.mem_filter.mpr ⟨hlp, ?_⟩
            by_cases hp' : l.path = q
            · have ha' : l.agentID ≠ c.agentID := fun he => hkey ⟨hp', he⟩
              simp [hp', ha']
            · simp [hp']
          exact mem_upsert_of_nokey hl2 fun hk => hag (hk.2.trans rfl)
      · exfalso
        apply hnot
        rw [show (acquireLock locks q agentID ts epoch excl now ttl).2.2
            = expireStaleLocks locks now from by simp [acquireLock, hfc, htol]]
        exact hlp

/-- Exclusive holder "b" on path "p" whose expiry is exactly the instant of
the next acquisition. -/
def lockPb0 : Lock :=
  { path := "p", agentID := "b", lamportTS := 5, epoch := 0,
    exclusive := true, expiresAt := 0 }

/-- Exclusive holder "d" on path "p", unexpired. -/
def lockPd1 : Lock :=
  { path := "p", agentID := "d", lamportTS := 1, epoch := 0,
    exclusive := true, expiresAt := 100 }

/-- Counterexample to C2 as stated: with holders "b" (expiry exactly now) and
"d" (unexpired) on path "p" the state has at most one unexpired exclusive
lock on "p", yet agent "a" acquiring "p" — it beats "b", the row the conflict
query returns, but not "d" — commits a table with two exclusive locks on "p"
expiring after now. -/
theorem acquireLock_excl_invariant_counterexample :
    ([lockPb0, lockPd1].filter (exclGtAt "p" 0)).length ≤ 1 ∧
    ¬((((acquireLock [lockPb0, lockPd1] "p" "a" 2 0 true 0 50).2.2).filter
        (exclGtAt "p" 0)).length ≤ 1) := by
  decide

/-- Witness for C2 at a concrete input: holder "b" on "f", requester "c" at a
later timestamp is denied and every clause of the preserved invariant holds. -/
theorem lock_excl_invariant_witness :
    (lockKeysOk [lockBf5] ∧ ([lockBf5].filter (exclGeAt "f" 0)).length ≤ 1) ∧
    ((((acquireLock [lockBf5] "f" "c" 7 0 true 0 50).2.2).filter
        (exclGeAt "f" 0)).length ≤ 1 ∧
    (((acquireLock [lockBf5] "f" "c" 7 0 true 0 50).2.2).filter
        (exclGtAt "f" 0)).length ≤ 1 ∧
    ((releaseLock [lockBf5] "f" "c").filter (exclGeAt "f" 0)).length ≤ 1 ∧
    ((releaseLock [lockBf5] "f" "c").filter (exclGtAt "f" 0)).length ≤ 1 ∧
    (∀ l ∈ [lockBf5], ¬(l.expiresAt < 0) → l.agentID ≠ "c" →
      l ∉ (acquireLock [lockBf5] "f" "c" 7 0 true 0 50).2.2 →
      totalOrderLess 7 "c" l.lamportTS l.agentID = true)) :=
  ⟨⟨by simp [lockKeysOk], by decide⟩,
    lock_excl_invariant [lockBf5] "f" "f" "c" 7 0 true 0 50 (by simp [lockKeysOk])
      (by decide)⟩

/-! ## Store state for agents, events and cursors (store.go, cmd/cm/app.go) -/

/-- The tables read and written by the inbox-drain paths. -/
structure StoreState where
  agents : List Agent
  events : List Event
  cursors : List (String × Int)
deriving DecidableEq

/-- `GetCursor`: the stored recv cursor for an agent, 0 when unset. -/
def getCursor (st : StoreState) (agentID : String) : Int :=
  ((st.cursors.find? fun c => c.1 == agentID).map Prod.snd).getD 0

/-- `SetCursor`: `INSERT ... ON CONFLICT(agent_id) DO UPDATE SET since_ts`. -/
def setCursor (st : StoreState) (agentID : String) (sinceTS : Int) : StoreState :=
  if st.cursors.any (fun c => c.1 == agentID) then
    { st with cursors := st.cursors.map fun c =>
        if c.1 == agentID then (c.1, sinceTS) else c }
  else
    { st with cursors := st.cursors ++ [(agentID, sinceTS)] }

/-- `GetAgent`. -/
def getAgent (st : StoreState) (agentID : String) : Option Agent :=
  st.agents.find? fun a => a.id == agentID

/-- `UpdateAgentClock`: `UPDATE agents SET clock, epoch, round WHERE id`. -/
def updateAgentClock (st : StoreState) (agentID : String) (clk ep rn : Int) :
    StoreState :=
  { st with agents := st.agents.map fun a =>
      if a.id == agentID then { a with clock := clk, epoch := ep, round := rn }
      else a }

/-- `ORDER BY lamport_ts ASC, id ASC` as a comparison on event rows. -/
def eventBefore (e f : Event) : Bool :=
  decide (e.lamportTS < f.lamportTS) ||
    (decide (e.lamportTS = f.lamportTS) && decide (e.id ≤ f.id))

/-- Insert a row into a (ts, id)-sorted list. -/
def insertByOrder (e : Event) : List Event → List Event
  | [] => [e]
  | f :: fs => if eventBefore e f then e :: f :: fs else f :: insertByOrder e fs

/-- Sort rows by (lamport_ts, id), realising the SQL ORDER BY. -/
def sortByOrder : List Event → List Event
  | [] => []
  | e :: es => insertByOrder e (sortByOrder es)

/-- `ListEventsForAgent`: rows with `target = ? AND kind = 'msg' AND
lamport_ts >= ?`, ordered by (ts, id); a non-positive limit becomes the
default 100. -/
def listEventsForAgent (st : StoreState) (agentID : String) (sinceTS : Int)
    (limit : Int) : List Event :=
  let lim := if limit ≤ 0 then 100 else limit
  (sortByOrder (st.events.filter fun e =>
    e.target == agentID && e.kind == "msg" &&
      decide (sinceTS ≤ e.lamportTS))).take lim.toNat

/-- `app.getClock`: a fresh Lamport clock seeded from the agent's persisted
value (0 when the agent row is missing). -/
def getClock (st : StoreState) (agentID : String) : Int :=
  match getAgent st agentID with
  | some ag => ag.clock
  | none => 0

/-- `app.drainInbox`: fetch pending messages (limit 100), apply IR2 once per
message, persist the clock on the agent row (when it exists, keeping its
epoch/round), advance the cursor to max(ts)+1 (when positive). `listErr`
models a failing list query. Returns the new state, the in-memory clock and
the drained messages. -/
def drainInbox (st : StoreState) (agentID : String) (c : Int) (listErr : Bool) :
    StoreState × Int × List Event :=
  if agentID = "" then (st, c, [])
  else
    let cursor := getCursor st agentID
    let msgs := if listErr then [] else listEventsForAgent st agentID cursor 100
    if listErr || msgs.isEmpty then (st, c, [])
    else
      let c2 := msgs.foldl (fun cc e => receive cc e.lamportTS) c
      let maxTS := msgs.foldl (fun m e => if e.lamportTS > m then e.lamportTS else m) 0
      let st1 := match getAgent st agentID with
        | some ag => updateAgentClock st agentID c2 ag.epoch ag.round
        | none => st
      let st2 := if maxTS > 0 then setCursor st1 agentID (maxTS + 1) else st1
      (st2, c2, msgs)

/-- `cmdRecv.filterByFrom`: only events sent by the given agent. -/
def filterByFrom (events : List Event) (fromA : String) : List Event :=
  events.filter fun e => e.agentID == fromA

/-- The state-affecting core of `cmdRecv`: resolve `since` (`--since` flag or
the stored cursor), fetch targeted messages, advance the clock by IR2 over
ALL fetched messages, persist clock and cursor, and compute the displayed
list by the `--from` filter ("" = no filter). Returns the new state, the
fetched list, the displayed list and the new clock value. -/
def cmdRecvCore (st : StoreState) (agentID : String) (sinceFlag limit : Int)
    (fromF : String) : StoreState × List Event × List Event × Int :=
  let since := if sinceFlag < 0 then getCursor st agentID else sinceFlag
  let events := listEventsForAgent st agentID since limit
  let c2 := events.foldl (fun cc e => receive cc e.lamportTS) (getClock st agentID)
  let maxTS := events.foldl (fun m e => if e.lamportTS > m then e.lamportTS else m) 0
  let st1 := match getAgent st agentID with
    | some ag => updateAgentClock st agentID c2 ag.epoch ag.round
    | none => st
  let st2 := if maxTS > 0 then setCursor st1 agentID (maxTS + 1) else st1
  let displayed := if fromF = "" then events else filterByFrom events fromF
  (st2, events, displayed, c2)

/-- Step 2 of `cmdSync`: fetch messages since the cursor (limit 100), apply
IR2 per message, persist the clock with the flag epoch/round, advance the
cursor when a positive timestamp was seen. -/
def syncRecvStep (st : StoreState) (agentID : String) (c ep rn : Int) :
    StoreState × Int × List Event :=
  let since := getCursor st agentID
  let messages := listEventsForAgent st agentID since 100
  let c2 := messages.foldl (fun cc e => receive cc e.lamportTS) c
  let maxTS := messages.foldl (fun m e => if e.lamportTS > m then e.lamportTS else m) 0
  let st1 := updateAgentClock st agentID c2 ep rn
  let st2 := if maxTS > 0 then setCursor st1 agentID (maxTS + 1) else st1
  (st2, c2, messages)

/-! ## Accessor lemmas for the state operations -/

lemma find?_setCursor (l : List (String × Int)) (agentID : String) (v : Int)
    (h : (l.any fun c => c.1 == agentID) = true) :
    ∃ k, (l.map fun c => if c.1 == agentID then (c.1, v) else c).find?
        (fun c => c.1 == agentID) = some (k, v) := by
  induction l with
  | nil => simp at h
  | cons a t ih =>
    by_cases ha : (a.1 == agentID) = true
    · refine ⟨a.1, ?_⟩
      simp only [List.map_cons, if_pos ha]
      exact List.find?_cons_of_pos _ ha
    · simp only [List.map_cons, if_neg ha]
      have hstep : List.find? (fun c => c.1 == agentID)
          (a :: (t.map fun c => if c.1 == agentID then (c.1, v) else c))
          = List.find? (fun c => c.1 == agentID)
            (t.map fun c => if c.1 == agentID then (c.1, v) else c) :=
        List.find?_cons_of_neg _ ha
      rw [hstep]
      apply ih
      simpa [List.any_cons, ha] using h

lemma find?_appendCursor (l : List (String × Int)) (agentID : String) (v : Int)
    (h : (l.any fun c => c.1 == agentID) = false) :
    (l ++ [(agentID, v)]).find? (fun c => c.1 == agentID) = some (agentID, v) := by
  induction l with
  | nil => simp
  | cons a t ih =>
    rw [List.any_cons, Bool.or_eq_false_iff] at h
    have hstep : List.find? (fun c => c.1 == agentID) (a :: (t ++ [(agentID, v)]))
        = List.find? (fun c => c.1 == agentID) (t ++ [(agentID, v)]) :=
      List.find?_cons_of_neg _ (by simp [h.1])
    rw [List.cons_append, hstep]
    exact ih h.2

lemma getCursor_setCursor (st : StoreState) (agentID : String) (v : Int) :
    getCursor (setCursor st agentID v) agentID = v := by
  unfold getCursor setCursor
  by_cases hany : (st.cursors.any fun c => c.1 == agentID) = true
  · rw [if_pos hany]
    obtain ⟨k, hk⟩ := find?_setCursor st.cursors agentID v hany
    rw [show ({ st with cursors := st.cursors.map fun c =>
          if c.1 == agentID then (c.1, v) else c } : StoreState).cursors
        = st.cursors.map fun c => if c.1 == agentID then (c.1, v) else c from rfl,
      hk]
    rfl
  · rw [if_neg hany]
    rw [show ({ st with cursors := st.cursors ++ [(agentID, v)] } :
        StoreState).cursors = st.cursors ++ [(agentID, v)] from rfl]
    rw [find?_appendCursor st.cursors agentID v (Bool.eq_false_iff.mpr hany)]
    simp

lemma getAgent_setCursor (st : StoreState) (a b : String) (v : Int) :
    getAgent (setCursor st b v) a = getAgent st a := by
  unfold getAgent setCursor
  by_cases h : (st.cursors.any fun c => c.1 == b) = true
  · rw [if_pos h]
  · rw [if_neg h]

lemma find?_updateAgents (l : List Agent) (agentID : String) (ag : Agent)
    (c2 ep rn : Int) (h : l.find? (fun a => a.id == agentID) = some ag) :
    (l.map fun a =>
        if a.id == agentID then { a with clock := c2, epoch := ep, round := rn }
        else a).find? (fun a => a.id == agentID)
      = some { ag with clock := c2, epoch := ep, round := rn } := by
  induction l with
  | nil => simp at h
  | cons a t ih =>
    by_cases ha : (a.id == agentID) = true
    · have hstep : List.find? (fun x => x.id == agentID) (a :: t) = some a :=
        List.find?_cons_of_pos _ ha
      rw [hstep] at h
      injection h with h
      subst h
      simp only [List.map_cons, if_pos ha]
      exact List.find?_cons_of_pos _ ha
    · have hstep : List.find? (fun x => x.id == agentID) (a :: t)
          = List.find? (fun x => x.id == agentID) t :=
        List.find?_cons_of_neg _ ha
      rw [hstep] at h
      simp only [List.map_cons, if_neg ha]
      have hstep2 : List.find? (fun x => x.id == agentID)
          (a :: (t.map fun x => if x.id == agentID
            then { x with clock := c2, epoch := ep, round := rn } else x))
          = List.find? (fun x => x.id == agentID)
            (t.map fun x => if x.id == agentID
              then { x with clock := c2, epoch := ep, round := rn } else x) :=
        List.find?_cons_of_neg _ ha
      rw [hstep2]
      exact ih h

lemma getAgent_updateAgentClock {st : StoreState} {agentID : String} {ag : Agent}
    (h : getAgent st agentID = some ag) (c2 ep rn : Int) :
    getAgent (updateAgentClock st agentID c2 ep rn) agentID
      = some { ag with clock := c2, epoch := ep, round := rn } :=
  find?_updateAgents st.agents agentID ag c2 ep rn h

lemma getCursor_updateAgentClock (st : StoreState) (a b : String)
    (c2 ep rn : Int) : getCursor (updateAgentClock st b c2 ep rn) a
      = getCursor st a := rfl

lemma foldl_receive_pos (msgs : List Event) (hne : msgs ≠ [])
    (hpos : ∀ e ∈ msgs, 0 < e.lamportTS) :
    0 < msgs.foldl (fun m e => if e.lamportTS > m then e.lamportTS else m) 0 := by
  have step : ∀ (l : List Event) (init : Int), 0 < init →
      0 < l.foldl (fun m e => if e.lamportTS > m then e.lamportTS else m) init := by
    intro l
    induction l with
    | nil => intro init h; simpa using h
    | cons f fs ih =>
      intro init h
      rw [List.foldl_cons]
      by_cases hf : f.lamportTS > init
      · rw [if_pos hf]
        exact ih _ (lt_trans h hf)
      · rw [if_neg hf]
        exact ih _ h
  rcases msgs with _ | ⟨e, rest⟩
  · exact absurd rfl hne
  · rw [List.foldl_cons]
    have he := hpos e (List.mem_cons_self ..)
    rw [if_pos he]
    exact step rest e.lamportTS he

/-! ## Claims C7, C9 and C10 -/

/-- 101 pending messages for agent "a", Lamport timestamps 1..101. -/
def manyEvents : List Event :=
  (List.range 101).map fun i =>
    { id := Int.ofNat (i + 1), agentID := "b", lamportTS := Int.ofNat (i + 1),
      epoch := 0, round := 0, kind := "msg", target := "a", body := "" }

/-- The agent row for "a" with clock 0. -/
def agentA0 : Agent := { id := "a", clock := 0, epoch := 0, round := 0 }

/-- A store with agent "a" registered and 101 pending messages. -/
def stBig : StoreState :=
  { agents := [agentA0], events := manyEvents, cursors := [] }

set_option maxRecDepth 100000 in
/-- Counterexample to C7 as stated: 101 messages with ts ≥ the stored cursor
are pending for "a", but the drain step reads only the first 100 of them and
advances the cursor to 101 — not past all pending events as "reads all
events ... with Lamport ts ≥ the stored cursor" requires. -/
theorem drainInbox_limit_counterexample :
    (stBig.events.filter fun e => e.target == "a" && e.kind == "msg" &&
        decide (getCursor stBig "a" ≤ e.lamportTS)).length = 101 ∧
    ((drainInbox stBig "a" (getClock stBig "a") false).2.2).length = 100 ∧
    getCursor (drainInbox stBig "a" (getClock stBig "a") false).1 "a" = 101 := by
  decide

/-- C7 (amended): with an existing agent row and a non-empty pending inbox of
positive Lamport timestamps, the drain step — in `drainInbox` and in the sync
receive step — fetches the first (up to) 100 pending targeted messages in
(ts, id) order, applies Receive (IR2) once per fetched message, persists the
resulting clock on the agent row, and advances the stored cursor to
max(ts)+1 over the fetched messages. -/
theorem drainInbox_sync_spec (st : StoreState) (agentID : String) (ag : Agent)
    (ep rn : Int)
    (hagent : getAgent st agentID = some ag) (hne : agentID ≠ "")
    (hmsgs : listEventsForAgent st agentID (getCursor st agentID) 100 ≠ [])
    (hpos : ∀ e ∈ listEventsForAgent st agentID (getCursor st agentID) 100,
      0 < e.lamportTS) :
    (drainInbox st agentID (getClock st agentID) false).2.2
      = listEventsForAgent st agentID (getCursor st agentID) 100 ∧
    (drainInbox st agentID (getClock st agentID) false).2.1
      = (listEventsForAgent st agentID (getCursor st agentID) 100).foldl
          (fun cc e => receive cc e.lamportTS) (getClock st agentID) ∧
    getAgent (drainInbox st agentID (getClock st agentID) false).1 agentID
      = some
          { ag with
            clock := (listEventsForAgent st agentID (getCursor st agentID) 100).foldl
                (fun cc e => receive cc e.lamportTS) (getClock st agentID) } ∧
    getCursor (drainInbox st agentID (getClock st agentID) false).1 agentID
      = (listEventsForAgent st agentID (getCursor st agentID) 100).foldl
          (fun m e => if e.lamportTS > m then e.lamportTS else m) 0 + 1 ∧
    (syncRecvStep st agentID (getClock st agentID) ep rn).2.2
      = listEventsForAgent st agentID (getCursor st agentID) 100 ∧
    (syncRecvStep st agentID (getClock st agentID) ep rn).2.1
      = (listEventsForAgent st agentID (getCursor st agentID) 100).foldl
          (fun cc e => receive cc e.lamportTS) (getClock st agentID) ∧
    getAgent (syncRecvStep st agentID (getClock st agentID) ep rn).1 agentID
      = some
          { ag with
            clock := (listEventsForAgent st agentID (getCursor st agentID) 100).foldl
                (fun cc e => receive cc e.lamportTS) (getClock st agentID),
            epoch := ep, round := rn } ∧
    getCursor (syncRecvStep st agentID (getClock st agentID) ep rn).1 agentID
      = (listEventsForAgent st agentID (getCursor st agentID) 100).foldl
          (fun m e => if e.lamportTS > m then e.lamportTS else m) 0 + 1 := by
  have hie : (listEventsForAgent st agentID (getCursor st agentID) 100).isEmpty
      = false := List.isEmpty_eq_false.mpr hmsgs
  have hmax : 0 < (listEventsForAgent st agentID (getCursor st agentID) 100).foldl
      (fun m e => if e.lamportTS > m then e.lamportTS else m) 0 :=
    foldl_receive_pos _ hmsgs hpos
  refine ⟨?_, ?_, ?_, ?_, ?_, ?_, ?_, ?_⟩
  · simp [drainInbox, hne, hie]
  · simp [drainInbox, hne, hie]
  · simp [drainInbox, hne, hie, hagent, hmax, getAgent_setCursor,
      getAgent_updateAgentClock hagent]
  · simp [drainInbox, hne, hie, hagent, hmax, getCursor_setCursor]
  · simp [syncRecvStep]
  · simp [syncRecvStep]
  · simp [syncRecvStep, hmax, getAgent_setCursor, getAgent_updateAgentClock hagent]
  · simp [syncRecvStep, hmax, getCursor_setCursor]

/-- A message from "b" to "a" at Lamport ts 3. -/
def msgB3 : Event :=
  { id := 1, agentID := "b", lamportTS := 3, epoch := 0, round := 0,
    kind := "msg", target := "a", body := "hi" }

/-- A store with agent "a" (clock 0) and one pending message from "b". -/
def stOne : StoreState :=
  { agents := [agentA0], events := [msgB3], cursors := [] }

/-- Witness for C7 (amended) at a concrete input: draining "a"'s single
pending message at ts 3 advances the stored cursor to 4. -/
theorem drainInbox_sync_spec_witness :
    (getAgent stOne "a" = some agentA0 ∧
      listEventsForAgent stOne "a" (getCursor stOne "a") 100 ≠ [] ∧
      (∀ e ∈ listEventsForAgent stOne "a" (getCursor stOne "a") 100,
        0 < e.lamportTS)) ∧
    getCursor (drainInbox stOne "a" (getClock stOne "a") false).1 "a"
      = (listEventsForAgent stOne "a" (getCursor stOne "a") 100).foldl
          (fun m e => if e.lamportTS > m then e.lamportTS else m) 0 + 1 :=
  ⟨⟨by decide, by decide, by decide⟩,
    (drainInbox_sync_spec stOne "a" agentA0 2 1 (by decide) (by decide)
      (by decide) (by decide)).2.2.2.1⟩

/-- C9: two `recv` invocations differing only in the `--from` filter value
produce the same persisted state and the same fetched list: the clock has
advanced by IR2 over all fetched messages and the cursor to the maximum
fetched timestamp plus one regardless of the filter, which only selects the
displayed subset of the fetched list. -/
theorem cmdRecv_from_noninterference (st : StoreState) (agentID : String)
    (sinceFlag limit : Int) (f1 f2 : String) :
    (cmdRecvCore st agentID sinceFlag limit f1).1
      = (cmdRecvCore st agentID sinceFlag limit f2).1 ∧
    (cmdRecvCore st agentID sinceFlag limit f1).2.1
      = (cmdRecvCore st agentID sinceFlag limit f2).2.1 ∧
    (cmdRecvCore st agentID sinceFlag limit f1).2.2.2
      = (cmdRecvCore st agentID sinceFlag limit f1).2.1.foldl
          (fun cc e => receive cc e.lamportTS) (getClock st agentID) ∧
    (f1 ≠ "" → (cmdRecvCore st agentID sinceFlag limit f1).2.2.1
      = filterByFrom (cmdRecvCore st agentID sinceFlag limit f1).2.1 f1) ∧
    ((∀ e ∈ (cmdRecvCore st agentID sinceFlag limit f1).2.1, 0 < e.lamportTS) →
      (cmdRecvCore st agentID sinceFlag limit f1).2.1 ≠ [] →
      getCursor (cmdRecvCore st agentID sinceFlag limit f1).1 agentID
        = (cmdRecvCore st agentID sinceFlag limit f1).2.1.foldl
            (fun m e => if e.lamportTS > m then e.lamportTS else m) 0 + 1) := by
  refine ⟨rfl, rfl, rfl, ?_, ?_⟩
  · intro h1
    simp [cmdRecvCore, h1]
  · intro hpos hne
    have hmax : 0 < (cmdRecvCore st agentID sinceFlag limit f1).2.1.foldl
        (fun m e => if e.lamportTS > m then e.lamportTS else m) 0 :=
      foldl_receive_pos _ hne hpos
    simp only [cmdRecvCore] at hmax ⊢
    rw [if_pos hmax, getCursor_setCursor]

/-- Witness for C9 at a concrete input: recv with `--from b` and with
`--from z` persist the same state on a store with one pending message. -/
theorem cmdRecv_from_noninterference_witness :
    (cmdRecvCore stOne "a" (-1) 100 "b").1
      = (cmdRecvCore stOne "a" (-1) 100 "z").1 ∧
    ("b" ≠ "" → (cmdRecvCore stOne "a" (-1) 100 "b").2.2.1
      = filterByFrom (cmdRecvCore stOne "a" (-1) 100 "b").2.1 "b") ∧
    getCursor (cmdRecvCore stOne "a" (-1) 100 "b").1 "a"
      = (cmdRecvCore stOne "a" (-1) 100 "b").2.1.foldl
          (fun m e => if e.lamportTS > m then e.lamportTS else m) 0 + 1 :=
  ⟨(cmdRecv_from_noninterference stOne "a" (-1) 100 "b" "z").1,
    (cmdRecv_from_noninterference stOne "a" (-1) 100 "b" "z").2.2.2.1,
    (cmdRecv_from_noninterference stOne "a" (-1) 100 "b" "z").2.2.2.2
      (by decide) (by decide)⟩

/-- C10: when the listing query fails or no pending messages exist,
`drainInbox` performs no writes — the returned state is exactly the input
state, so clock, epoch, round and cursor are all unchanged — and the
returned message list is empty. -/
theorem drainInbox_no_writes (st : StoreState) (agentID : String) (c : Int)
    (listErr : Bool)
    (h : listErr = true ∨
      listEventsForAgent st agentID (getCursor st agentID) 100 = []) :
    drainInbox st agentID c listErr = (st, c, []) := by
  by_cases hid : agentID = ""
  · simp [drainInbox, hid]
  · rcases h with h | h
    · subst h
      simp [drainInbox, hid]
    · simp [drainInbox, hid, h]

/-- Witness for C10 at a concrete input: agent "z" has no pending messages in
`stOne`, so a drain leaves the state untouched and returns nothing. -/
theorem drainInbox_no_writes_witness :
    listEventsForAgent stOne "z" (getCursor stOne "z") 100 = [] ∧
    drainInbox stOne "z" 9 false = (stOne, 9, []) :=
  ⟨by decide, drainInbox_no_writes stOne "z" 9 false (Or.inr (by decide))⟩

end Clockmail
